import Mathlib

/-!
# Verification of the grayskull `py_base` strategy module

Shallow embedding of `src/grayskull/strategy/py_base.py`:

* the interpreter-version resolver `generic_py_ver_to` together with
  `get_py_multiple_selectors`, `py_version_to_limit_python`;
* the dependency-line filter `clean_deps_for_conda_forge` and its inline
  directive regex;
* the `setup_requires` handling of `merge_sdist_metadata` and of the
  injected `__fake_distutils_setup`;
* the exception discipline of `injection_distutils` and the bounded
  missing-module retry of `__run_setup_py`.

The `Configuration` helpers (`get_py_version_available`,
`get_oldest_py3_version`, `py_cf_supported`) live outside the sources at
hand and are modelled from the specification, as marked on each such
definition.
-/

set_option autoImplicit false

namespace Grayskull

/-- `PyVer` named tuple from `grayskull.utils`: a (major, minor) pair,
compared lexicographically like a Python tuple. -/
structure PyVer where
  major : Nat
  minor : Nat
  deriving DecidableEq, Repr

/-- The legacy interpreter version `PyVer(2, 7)`. -/
def py27 : PyVer := ⟨2, 7⟩

/-- Python tuple `<` on `PyVer` (lexicographic). -/
def pyVerLtB (a b : PyVer) : Bool :=
  a.major < b.major || (a.major = b.major && a.minor < b.minor)

/-- Python tuple `<=` on `PyVer` (lexicographic). -/
def pyVerLeB (a b : PyVer) : Bool :=
  pyVerLtB a b || a = b

/-- Evaluation of one comparator string on `PyVer` values, as done by the
source's `eval(f"py_ver_min{op}current_py")` / `eval` in the enabled-vector
computation.  Only the six comparators appearing in the regexes are
meaningful; on any other run of `[<>=!]` characters the source's `eval`
raises a `SyntaxError`, which we map to `false` (no claim exercises it). -/
def evalPyOp (op : String) (a b : PyVer) : Bool :=
  if op = "<" then pyVerLtB a b
  else if op = "<=" then pyVerLeB a b
  else if op = ">" then pyVerLtB b a
  else if op = ">=" then pyVerLeB b a
  else if op = "==" then a = b
  else if op = "!=" then !(a = b : Bool)
  else false

/-- Decimal digit characters, Python `\d` (ASCII fragment used here). -/
def isDigitChar (c : Char) : Bool := '0' ≤ c && c ≤ '9'

/-- Python `\s` whitespace class (ASCII fragment). -/
def isWsChar (c : Char) : Bool :=
  c = ' ' || c = '\t' || c = '\n' || c = '\r' || c = '\x0b' || c = '\x0c'

/-- Comparator characters, the class `[><=!]` of both regexes. -/
def isCmpChar (c : Char) : Bool :=
  c = '>' || c = '<' || c = '=' || c = '!'

/-- Numeric value of a digit string, as Python `int`. -/
def digitsToNat (ds : List Char) : Nat :=
  ds.foldl (fun n c => 10 * n + (c.toNat - '0'.toNat)) 0

/-- One `(comparator, major, optional minor)` triple produced by the
`requires_python` regex `([><=!]+)\s*(\d+)(?:\.(\d+))?`. -/
structure ReqTriple where
  op : String
  majorDigits : Nat
  minorDigits : Option Nat
  deriving DecidableEq, Repr

/-- Attempt to match `([><=!]+)\s*(\d+)(?:\.(\d+))?` at the head of the
character list; on success returns the triple and the unconsumed
remainder.  All character classes involved are disjoint, so the greedy
maximal-munch scan coincides with the Python regex engine. -/
def tryMatchReq (cs : List Char) : Option (ReqTriple × List Char) :=
  let ops := cs.takeWhile isCmpChar
  if ops.isEmpty then none else
  let r1 := (cs.dropWhile isCmpChar).dropWhile isWsChar
  let ds := r1.takeWhile isDigitChar
  if ds.isEmpty then none else
  let r2 := r1.dropWhile isDigitChar
  match r2 with
  | '.' :: r3 =>
    let ds2 := r3.takeWhile isDigitChar
    if ds2.isEmpty then
      some (⟨⟨ops⟩, digitsToNat ds, none⟩, r2)
    else
      some (⟨⟨ops⟩, digitsToNat ds, some (digitsToNat ds2)⟩, r3.dropWhile isDigitChar)
  | _ => some (⟨⟨ops⟩, digitsToNat ds, none⟩, r2)

/-- Fueled scan for `re.findall`: at each position try to match, emit the
groups and continue after the match, otherwise advance one character.
Each step consumes at least one character, so fuel equal to the input
length is never exhausted before the input is. -/
def findallAux : Nat → List Char → List ReqTriple
  | 0, _ => []
  | _ + 1, [] => []
  | fuel + 1, c :: rest =>
    match tryMatchReq (c :: rest) with
    | some (t, rem) => t :: findallAux fuel rem
    | none => findallAux fuel rest

/-- `re.findall(r"([><=!]+)\s*(\d+)(?:\.(\d+))?", s)` from
`generic_py_ver_to`. -/
def findallReqPython (cs : List Char) : List ReqTriple :=
  findallAux cs.length cs

/-- Resolver configuration: the ordered ascending list of supported
python 3 versions (`py_cf_supported`) and the strict conda-forge flag. -/
structure Configuration where
  py_cf_supported : List PyVer
  is_strict_cf : Bool
  deriving DecidableEq, Repr

/-- Modelled from the spec: the SupportMatrix the enabled vector ranges
over.  Per spec §3/§4.2, in strict mode the matrix is exactly the
supported python 3 list, while in non-strict mode the legacy `2.7` entry
sits at the very front of the matrix. -/
def matrixAll (cfg : Configuration) : List PyVer :=
  if cfg.is_strict_cf then cfg.py_cf_supported else py27 :: cfg.py_cf_supported

/-- Modelled from the spec: `Configuration.get_py_version_available`
(not among the sources at hand).  Per spec §3, the EnabledVector maps
each SupportMatrix entry, in matrix order, to whether it satisfies every
parsed `(comparator, major, minor)` triple, the triples being evaluated
by conjunction and a missing minor group meaning `0`. -/
def get_py_version_available (cfg : Configuration) (req : List ReqTriple) :
    List (PyVer × Bool) :=
  (matrixAll cfg).map fun v =>
    (v, req.all fun t => evalPyOp t.op v ⟨t.majorDigits, t.minorDigits.getD 0⟩)

/-- Modelled from the spec: `Configuration.get_oldest_py3_version` (not
among the sources at hand).  Per spec §6 it is the "oldest version"
lookup over the matrix keys; the matrix is iterated in ascending order
(spec §3 invariant), so the scan returns the first entry with major
version at least 3, falling back to the head of `py_cf_supported`. -/
def get_oldest_py3_version (cfg : Configuration) (keys : List PyVer) : PyVer :=
  match keys.find? (fun v => decide (3 ≤ v.major)) with
  | some v => v
  | none => cfg.py_cf_supported.headD ⟨3, 6⟩

/-- `py_ver_enabled.get(PyVer(2, 7))`: first binding of the legacy key in
the (insertion-ordered, duplicate-free) enabled mapping. -/
def lookup27 (pvs : List (PyVer × Bool)) : Option Bool :=
  (pvs.find? (fun p => decide (p.1 = py27))).map Prod.snd

/-- The range string `f">={v.major}.{v.minor}"`. -/
def rangeGe (v : PyVer) : String :=
  ">=" ++ toString v.major ++ "." ++ toString v.minor

/-- The guard string `f"# [py<{v.major}{v.minor}]"`. -/
def selBelow (v : PyVer) : String :=
  "# [py<" ++ toString v.major ++ toString v.minor ++ "]"

/-- The cutover scan of `generic_py_ver_to` (source lines 163-182):
`for pos, py_ver in enumerate(py_ver_enabled)` with the two slice tests
`all(all_py[pos:]) and any(all_py[:pos]) is False` and
`any(all_py[pos:]) is False`.  Since `all_py` is exactly the value column
of `py_ver_enabled`, the slice `all_py[pos:]` is the value column of the
entries not yet scanned and `any(all_py[:pos])` is the accumulator
`seen`; `first` is `all_py[0]`. -/
def cutoverScan (strict isSel : Bool) (small : PyVer) (first : Bool) :
    Bool → List (PyVer × Bool) → Option String
  | _, [] => none
  | seen, (v, en) :: rest =>
    if v = py27 then cutoverScan strict isSel small first (seen || en) rest
    else if (en :: rest.map Prod.snd).all (fun b => b) = true ∧ seen = false then
      some (if isSel then selBelow v else rangeGe v)
    else if (en :: rest.map Prod.snd).any (fun b => b) = false then
      some (if isSel then
        "# [py>=" ++ toString v.major ++ toString v.minor ++
          (if !strict && !first then " or py2k" else "") ++ "]"
      else
        (if !first then rangeGe small ++ "," else "") ++
          "<" ++ toString v.major ++ "." ++ toString v.minor)
    else cutoverScan strict isSel small first (seen || en) rest

/-- `get_py_multiple_selectors` (source lines 468-495).  In the
non-selector legacy branch the source extends the selector list with the
`PyVer` named tuple itself, i.e. with its two integer components; joining
such a list later raises `TypeError` in the source, and no claim reaches
that branch — we render the two components as strings.  The source
subscript `selectors[PyVer(2, 7)]` raises `KeyError` when the key is
absent; per the spec invariant a non-strict matrix always carries the
legacy entry, so the lookup-based model only diverges off-spec. -/
def get_py_multiple_selectors (cfg : Configuration) (isSel : Bool)
    (selectors : List (PyVer × Bool)) : List String :=
  let legacyPart :=
    if cfg.is_strict_cf = false ∧ lookup27 selectors = some false then
      if isSel then ["py2k"]
      else
        let o := get_oldest_py3_version cfg (selectors.map Prod.fst)
        [toString o.major, toString o.minor]
    else []
  legacyPart ++ selectors.filterMap (fun p =>
    if (cfg.is_strict_cf = false ∧ p.1 = py27) ∨ p.2 = true then none
    else some (if isSel then
        "py==" ++ toString p.1.major ++ toString p.1.minor
      else
        "!=" ++ toString p.1.major ++ "." ++ toString p.1.minor))

/-- Body of `generic_py_ver_to` from the computed enabled mapping on
(source lines 150-193). -/
def resolveEnabled (cfg : Configuration) (isSel : Bool)
    (pvs : List (PyVer × Bool)) : Option String :=
  let small := get_oldest_py3_version cfg (pvs.map Prod.fst)
  let all_py := pvs.map Prod.snd
  if all_py.all (fun b => b) = true then none
  else if (if cfg.is_strict_cf then all_py else all_py.tail).all (fun b => b) = true then
    if isSel then (if cfg.is_strict_cf then none else some "# [py2k]")
    else some (rangeGe small)
  else if lookup27 pvs = some true ∧ all_py.tail.any (fun b => b) = false then
    some (if isSel then "# [py3k]" else "<3.0")
  else
    match cutoverScan cfg.is_strict_cf isSel small (all_py.getD 0 true) false pvs with
    | some r => some r
    | none =>
      let sels := get_py_multiple_selectors cfg isSel pvs
      if sels.isEmpty then none
      else some (if isSel then "# [" ++ String.intercalate " or " sels ++ "]"
                 else String.intercalate "," sels)

/-- `generic_py_ver_to` (source lines 135-193): `none` stands for the
absent / falsy `requires_python` value and for the Python `None` result. -/
def generic_py_ver_to (cfg : Configuration) (isSel : Bool)
    (requires_python : Option String) : Option String :=
  match requires_python with
  | none => none
  | some s =>
    if s = "" then none
    else
      let req := findallReqPython s.toList
      if req.isEmpty then none
      else resolveEnabled cfg isSel (get_py_version_available cfg req)

/-- `py_version_to_selector` (source lines 498-499). -/
def py_version_to_selector (cfg : Configuration) (rp : Option String) : Option String :=
  generic_py_ver_to cfg true rp

/-- `py_version_to_limit_python` (source lines 502-509); the subscript
`py_cf_supported[0]` presumes a nonempty matrix (spec invariant), the
model defaults off-spec. -/
def py_version_to_limit_python (cfg : Configuration) (rp : Option String) : Option String :=
  let result := generic_py_ver_to cfg false rp
  if (result.getD "").isEmpty = true ∧ cfg.is_strict_cf = true then
    some (rangeGe (cfg.py_cf_supported.headD ⟨3, 6⟩))
  else result

/-- Attempt to match the dependency-directive regex
`#\s+\[py\s*(?:([<>=!]+))?\s*(\d+)\]\s*$` at the head of the character
list; returns the optional comparator group and the digit group.  All
character classes are disjoint and the pattern is end-anchored, so the
greedy maximal-munch scan coincides with the Python regex engine (the
end anchor `\s*$` is realised by requiring nothing past the trailing
whitespace, which also covers `$` before a final newline). -/
def tryPyDelim (cs : List Char) : Option (Option String × String) :=
  match cs with
  | '#' :: r1 =>
    if (r1.takeWhile isWsChar).isEmpty then none else
    match r1.dropWhile isWsChar with
    | '[' :: 'p' :: 'y' :: r2 =>
      let r3 := r2.dropWhile isWsChar
      let ops := r3.takeWhile isCmpChar
      let r4 := (r3.dropWhile isCmpChar).dropWhile isWsChar
      let ds := r4.takeWhile isDigitChar
      if ds.isEmpty then none else
      match r4.dropWhile isDigitChar with
      | ']' :: r5 =>
        if (r5.dropWhile isWsChar).isEmpty then
          some (if ops.isEmpty then none else some ⟨ops⟩, ⟨ds⟩)
        else none
      | _ => none
    | _ => none
  | _ => none

/-- `re_delimiter.search(dependency)`: leftmost match of the directive
pattern (a match can only start at a `#`). -/
def searchPyDelim : List Char → Option (Option String × String)
  | [] => none
  | c :: rest =>
    match tryPyDelim (c :: rest) with
    | some r => some r
    | none => searchPyDelim rest

/-- Version parsing of `clean_deps_for_conda_forge` (source lines 59-60):
`major = int(match_del[1][0])`,
`minor = int(match_del[1][1:].replace("k", "0") or 0)`. -/
def parse_delim_version (ds : String) : PyVer :=
  { major := (ds.toList.headD '0').toNat - '0'.toNat
    minor :=
      let t := (ds.toList.drop 1).map fun c => if c = 'k' then '0' else c
      if t.isEmpty then 0 else digitsToNat t }

/-- `clean_deps_for_conda_forge` (source lines 45-65): keep a line with no
trailing directive; for a matched directive default the comparator group
to `"=="` when absent and keep the line iff
`py_ver_min <comparator> parsed_version`. -/
def clean_deps_for_conda_forge : List String → PyVer → List String
  | [], _ => []
  | dep :: rest, py_ver_min =>
    match searchPyDelim dep.toList with
    | none => dep :: clean_deps_for_conda_forge rest py_ver_min
    | some (opGroup, ds) =>
      if evalPyOp (opGroup.getD "==") py_ver_min (parse_delim_version ds) = true then
        dep :: clean_deps_for_conda_forge rest py_ver_min
      else clean_deps_for_conda_forge rest py_ver_min

/-- Python `list(set(a).union(set(b)))` membership-faithfully: the set
iteration order is unspecified in Python, so we fix one duplicate-free
enumeration of the union. -/
def pySetUnion (a b : List String) : List String := (a ++ b).dedup

/-- The `setup_requires` slice of `merge_sdist_metadata` (source lines
252-271): the key is present in the merge iff present in either source;
`get_full_list` returns the setup.cfg value verbatim when setup.py lacks
the key and the set union otherwise; then a present `"setuptools-scm"`
is removed (first occurrence, `list.remove`). -/
def merge_setup_requires (setupPy setupCfg : Option (List String)) :
    Option (List String) :=
  match setupPy with
  | some v => some ((pySetUnion (setupCfg.getD []) v).erase "setuptools-scm")
  | none =>
    match setupCfg with
    | some v => some (v.erase "setuptools-scm")
    | none => none

/-- The `setup_requires` evolution inside `__fake_distutils_setup`
(source lines 350-367) for one interception call: `data_dist.update(kwargs)`
replaces the prior value when the keyword is present (and, sharing the
list object, the subsequent `+=` doubles it); a falsy value is reset to
`[]`; then the keyword value is appended; finally, when
`use_scm_version` is truthy, `"setuptools_scm"` is added if missing and
a present `"setuptools-scm"` is removed (first occurrence). -/
def fake_setup_requires (prior kwargsSR : Option (List String))
    (useScmVersion : Bool) : List String :=
  let d := match kwargsSR with
    | some v => some v
    | none => prior
  let d := match d with
    | none => []
    | some v => v
  let d := d ++ kwargsSR.getD []
  if useScmVersion then
    let d := if "setuptools_scm" ∈ d then d else d ++ ["setuptools_scm"]
    d.erase "setuptools-scm"
  else d

/-- The metadata record as an insertion-ordered field map (only the shape
matters to the exception-discipline claim). -/
abbrev MetaDict := List (String × List String)

/-- `data_dist.get(key)` on the field map. -/
def getField (d : MetaDict) (k : String) : Option (List String) :=
  (d.find? (fun p => p.1 = k)).map Prod.snd

/-- Exception discipline of `injection_distutils` (source lines 385-402):
descriptor execution is a step `run rerunFlag record = (record', raised?)`
returning the record accumulated so far together with the exception it
raised, if any.  The `try` block runs the injected pass, reruns the
descriptor as a script when no data / no `install_requires` was
captured, and the `except BaseException` arm yields the partial record
instead of propagating; `Except.error` would model an escaping
exception. -/
def injection_distutils
    (run : Bool → MetaDict → MetaDict × Option String) : Except String MetaDict :=
  match run false [] with
  | (d1, some _) => Except.ok d1
  | (d1, none) =>
    if d1 = ([] : MetaDict) ∨ (getField d1 "install_requires").getD [] = [] then
      Except.ok (run true d1).1
    else Except.ok d1

/-- `dep_install.split(".")[0]`: everything before the first dot. -/
def topLevelModule (s : String) : String := ⟨s.toList.takeWhile (fun c => c ≠ '.')⟩

/-- The missing-module retry decision of `__run_setup_py` (source lines
430-441): on a `ModuleNotFoundError` for `errName`, truncate the name to
its top level if it was already attempted, and retry (with the name
recorded) only if the resulting name is new; `none` means the run stops
retrying. -/
def retry_decision (depsInstalled : List String) (errName : String) :
    Option (List String) :=
  let dep := if errName ∈ depsInstalled then topLevelModule errName else errName
  if dep ∈ depsInstalled then none
  else some (depsInstalled ++ [dep])

/-- Number of descriptor executions performed by `__run_setup_py` when
the successive failures raise the module names in `trace` (an execution
beyond the trace succeeds): each failed execution counts one attempt and
recurses exactly when `retry_decision` grants a retry. -/
def setup_attempts (depsInstalled : List String) : List String → Nat
  | [] => 1
  | e :: rest =>
    match retry_decision depsInstalled e with
    | none => 1
    | some deps2 => 1 + setup_attempts deps2 rest

/-- The strict support matrix `[3.6, 3.7, 3.8, 3.9]`. -/
def cfgStrict3679 : Configuration := ⟨[⟨3, 6⟩, ⟨3, 7⟩, ⟨3, 8⟩, ⟨3, 9⟩], true⟩

/-- The non-strict configuration with python 3 entries `[3.6, 3.7, 3.8]`,
whose full matrix is `[2.7, 3.6, 3.7, 3.8]`. -/
def cfgLegacy368 : Configuration := ⟨[⟨3, 6⟩, ⟨3, 7⟩, ⟨3, 8⟩], false⟩

/-!  ## Theorems  -/

/-- **C1**: for the strict matrix `[3.6, 3.7, 3.8, 3.9]` and constraint
`">=3.7,<3.9"` (EnabledVector `[false, true, true, false]`) the claim
predicts the enumeration fallback, range `"!=3.6,!=3.9"` and guard
`"py==36 or py==39"`.  The code instead returns `">=3.6,<3.9"` and
`"# [py>=39]"`: the descending-cutover branch tests only
`any(all_py[pos:]) is False` without requiring everything before the
cutover to be enabled, so it fires at `3.9` and shadows the enumeration
fallback — which, as the last two conjuncts show, would have produced
exactly the claimed strings. -/
theorem c1_descending_branch_shadows_enumeration :
    generic_py_ver_to cfgStrict3679 false (some ">=3.7,<3.9") = some ">=3.6,<3.9" ∧
    generic_py_ver_to cfgStrict3679 true (some ">=3.7,<3.9") = some "# [py>=39]" ∧
    get_py_version_available cfgStrict3679 (findallReqPython ">=3.7,<3.9".toList) =
      [(⟨3, 6⟩, false), (⟨3, 7⟩, true), (⟨3, 8⟩, true), (⟨3, 9⟩, false)] ∧
    String.intercalate ","
      (get_py_multiple_selectors cfgStrict3679 false
        [(⟨3, 6⟩, false), (⟨3, 7⟩, true), (⟨3, 8⟩, true), (⟨3, 9⟩, false)]) =
      "!=3.6,!=3.9" ∧
    String.intercalate " or "
      (get_py_multiple_selectors cfgStrict3679 true
        [(⟨3, 6⟩, false), (⟨3, 7⟩, true), (⟨3, 8⟩, true), (⟨3, 9⟩, false)]) =
      "py==36 or py==39" := by
  decide

/-- **C2** (counterexample): for matrix `[2.7, 3.6, 3.7, 3.8]`,
strict off, constraint `">=3.6"`, the claim says range mode returns no
constraint; the code returns the floor `">=3.6"`. -/
theorem c2_counterexample :
    generic_py_ver_to cfgLegacy368 false (some ">=3.6") ≠ none ∧
    generic_py_ver_to cfgLegacy368 false (some ">=3.6") = some ">=3.6" := by
  decide

/-- **C2** (amended): for matrix `[2.7, 3.6, 3.7, 3.8]`, strict off,
constraint `">=3.6"` (EnabledVector `[false, true, true, true]`), range
mode returns the floor constraint `">=3.6"` at the oldest python 3 matrix
entry, and guard mode returns `"# [py2k]"`. -/
theorem c2_amended_legacy_exempt :
    generic_py_ver_to cfgLegacy368 false (some ">=3.6") = some ">=3.6" ∧
    generic_py_ver_to cfgLegacy368 true (some ">=3.6") = some "# [py2k]" := by
  decide

/-- **C3** (counterexample): the EnabledVector of matrix
`[2.7, 3.6, 3.7, 3.8]` for `">=3.6"` has a single ascending cutover at
`3.6` (nothing before it enabled, everything from it on enabled, the
legacy entry skipped in the scan), yet guard mode returns `"# [py2k]"`
rather than the claimed below-cutover guard `"# [py<36]"`. -/
theorem c3_counterexample :
    generic_py_ver_to cfgLegacy368 true (some ">=3.6") ≠ some "# [py<36]" ∧
    generic_py_ver_to cfgLegacy368 true (some ">=3.6") = some "# [py2k]" := by
  decide

/-- **C6**: the claim says a directive writing the minor version with the
placeholder character (e.g. `"# [py3k]"`) is parsed with minor `0` and
the line kept iff `min_version == (3, 0)`.  The directive regex digit
group `(\d+)` cannot match the placeholder, so such directives never
match and the line is kept for every floor — the `replace("k", "0")`
minor handling in the source is unreachable. -/
theorem c6_placeholder_directive_never_matches :
    searchPyDelim "pywin32  # [py3k]".toList = none ∧
    clean_deps_for_conda_forge ["pywin32  # [py3k]"] ⟨3, 6⟩ = ["pywin32  # [py3k]"] ∧
    clean_deps_for_conda_forge ["pywin32  # [py3k]"] ⟨3, 8⟩ = ["pywin32  # [py3k]"] := by
  decide

/-- **C7** (counterexample): the claim says `setup_requires` never
contains the build-tool self-reference under either spelling; but the
injected setup stand-in deliberately adds the underscore spelling
`"setuptools_scm"` whenever `use_scm_version` is set. -/
theorem c7_counterexample :
    "setuptools_scm" ∈ fake_setup_requires none none true := by
  decide

/-- **C10**: the output of `clean_deps_for_conda_forge` is a subsequence
of its input — every kept line appears verbatim and in the original
relative order, and no line is ever added. -/
theorem c10_clean_deps_sublist (deps : List String) (v : PyVer) :
    (clean_deps_for_conda_forge deps v).Sublist deps := by
  induction deps with
  | nil => simp [clean_deps_for_conda_forge]
  | cons dep rest ih =>
    rw [clean_deps_for_conda_forge]
    cases hs : searchPyDelim dep.toList with
    | none => exact ih.cons₂ dep
    | some pr =>
      obtain ⟨opGroup, ds⟩ := pr
      show (if evalPyOp (opGroup.getD "==") v (parse_delim_version ds) = true then
          dep :: clean_deps_for_conda_forge rest v
        else clean_deps_for_conda_forge rest v).Sublist (dep :: rest)
      by_cases h : evalPyOp (opGroup.getD "==") v (parse_delim_version ds) = true
      · rw [if_pos h]
        exact ih.cons₂ dep
      · rw [if_neg h]
        exact ih.cons dep

/-- **C5**: a dependency line without a trailing inline directive is kept
unmodified; a line whose directive carries comparator `op` (defaulting to
`"=="` when the comparator group is absent) and digit group `ds` is kept
iff `min_version op parsed_version` holds. -/
theorem c5_directive_filter (dep : String) (v : PyVer) (op ds : String)
    (_hop : op = ">" ∨ op = ">=" ∨ op = "<" ∨ op = "<=" ∨ op = "==" ∨ op = "!=") :
    (searchPyDelim dep.toList = none →
      clean_deps_for_conda_forge [dep] v = [dep]) ∧
    (searchPyDelim dep.toList = some (some op, ds) →
      clean_deps_for_conda_forge [dep] v =
        if evalPyOp op v (parse_delim_version ds) = true then [dep] else []) ∧
    (searchPyDelim dep.toList = some (none, ds) →
      clean_deps_for_conda_forge [dep] v =
        if evalPyOp "==" v (parse_delim_version ds) = true then [dep] else []) := by
  refine ⟨?_, ?_, ?_⟩ <;> intro h
  · simp only [clean_deps_for_conda_forge, h]
  · simp only [clean_deps_for_conda_forge, h, Option.getD_some]
  · simp only [clean_deps_for_conda_forge, h, Option.getD_none]

/-- **C5** (witness): the line `"pywin32  # [py < 37]"` is retained for
floor `3.6` and dropped for floor `3.8`. -/
theorem c5_directive_filter_witness :
    clean_deps_for_conda_forge ["pywin32  # [py < 37]"] ⟨3, 6⟩ =
      ["pywin32  # [py < 37]"] ∧
    clean_deps_for_conda_forge ["pywin32  # [py < 37]"] ⟨3, 8⟩ = [] := by
  constructor
  · have h := (c5_directive_filter "pywin32  # [py < 37]" ⟨3, 6⟩ "<" "37"
      (by decide)).2.1 (by decide)
    simpa using h
  · have h := (c5_directive_filter "pywin32  # [py < 37]" ⟨3, 8⟩ "<" "37"
      (by decide)).2.1 (by decide)
    simpa using h

/-- **C9**: the missing-module retry of `__run_setup_py` is bounded: when
descriptor execution fails twice in a row with the same top-level module
name `m` (a name equal to its own top-level truncation), the second
failure finds `m` already recorded, truncation leaves it recorded, and no
third execution attempt is made — exactly two executions happen no matter
how the descriptor would keep failing. -/
theorem c9_retry_bounded (m : String) (hm : topLevelModule m = m)
    (rest : List String) :
    setup_attempts [] (m :: m :: rest) = 2 := by
  simp [setup_attempts, retry_decision, hm]

/-- **C9** (witness): a descriptor failing forever on module `"numpy"` is
executed exactly twice. -/
theorem c9_retry_bounded_witness :
    setup_attempts [] ["numpy", "numpy", "numpy"] = 2 :=
  c9_retry_bounded "numpy" (by decide) ["numpy"]

/-- **C8**: the extraction pipeline never raises to its caller: whatever
the descriptor execution does — including raising on either pass —
`injection_distutils` yields `Except.ok` with the best-effort record
gathered by the last executed pass. -/
theorem c8_extraction_never_raises
    (run : Bool → MetaDict → MetaDict × Option String) :
    ∃ d, injection_distutils run = Except.ok d ∧
      (d = (run false []).1 ∨ d = (run true (run false []).1).1) := by
  rcases hr : run false [] with ⟨d1, e1⟩
  cases e1 with
  | some e =>
    refine ⟨d1, ?_, Or.inl rfl⟩
    unfold injection_distutils
    rw [hr]
  | none =>
    by_cases hc : d1 = ([] : MetaDict) ∨
        (getField d1 "install_requires").getD [] = []
    · refine ⟨(run true d1).1, ?_, Or.inr rfl⟩
      unfold injection_distutils
      rw [hr]
      exact if_pos hc
    · refine ⟨d1, ?_, Or.inl rfl⟩
      unfold injection_distutils
      rw [hr]
      exact if_neg hc

/-- A fully enabled mapping resolves to no constraint. -/
theorem resolveEnabled_of_all_enabled (cfg : Configuration) (isSel : Bool)
    (pvs : List (PyVer × Bool))
    (h : (pvs.map Prod.snd).all (fun b => b) = true) :
    resolveEnabled cfg isSel pvs = none := by
  simp only [resolveEnabled]
  rw [if_pos h]

/-- **C4**: an absent constraint string, an unparseable one, and one that
enables every matrix entry all resolve to no constraint in both modes;
and in range mode with a strict matrix, `py_version_to_limit_python`
turns an unresolvable constraint into the floor `">="` the oldest matrix
entry. -/
theorem c4_absent_unparseable_all_enabled (cfg : Configuration)
    (isSel : Bool) (s : String) (rp : Option String) (v : PyVer)
    (rest : List PyVer) :
    generic_py_ver_to cfg isSel none = none ∧
    (findallReqPython s.toList = [] →
      generic_py_ver_to cfg isSel (some s) = none) ∧
    ((get_py_version_available cfg (findallReqPython s.toList)).all
        (fun p => p.2) = true →
      generic_py_ver_to cfg isSel (some s) = none) ∧
    (cfg.is_strict_cf = true → cfg.py_cf_supported = v :: rest →
      generic_py_ver_to cfg false rp = none →
      py_version_to_limit_python cfg rp = some (rangeGe v)) := by
  refine ⟨rfl, ?_, ?_, ?_⟩
  · intro h
    simp only [generic_py_ver_to]
    by_cases hs : s = ""
    · rw [if_pos hs]
    · rw [if_neg hs, if_pos (show (findallReqPython s.toList).isEmpty = true by
        rw [h]; rfl)]
  · intro h
    simp only [generic_py_ver_to]
    by_cases hs : s = ""
    · rw [if_pos hs]
    · rw [if_neg hs]
      by_cases hreq : (findallReqPython s.toList).isEmpty = true
      · rw [if_pos hreq]
      · rw [if_neg hreq]
        refine resolveEnabled_of_all_enabled cfg isSel _ ?_
        simpa [List.all_map, Function.comp] using h
  · intro hstrict hsupp hnone
    have hcond : ((generic_py_ver_to cfg false rp).getD "").isEmpty = true ∧
        cfg.is_strict_cf = true := by
      rw [hnone]
      exact ⟨rfl, hstrict⟩
    simp only [py_version_to_limit_python]
    rw [if_pos hcond, hsupp]
    rfl

/-- **C4** (witness): for the strict matrix `[3.6, 3.7, 3.8, 3.9]` the
unparseable constraint `"abc"` resolves to no constraint in both modes,
and `py_version_to_limit_python` defaults it to `">=3.6"`. -/
theorem c4_absent_unparseable_all_enabled_witness :
    generic_py_ver_to cfgStrict3679 false none = none ∧
    generic_py_ver_to cfgStrict3679 false (some "abc") = none ∧
    generic_py_ver_to cfgStrict3679 true (some "abc") = none ∧
    py_version_to_limit_python cfgStrict3679 (some "abc") = some ">=3.6" := by
  have h1 := c4_absent_unparseable_all_enabled cfgStrict3679 false "abc"
    (some "abc") ⟨3, 6⟩ [⟨3, 7⟩, ⟨3, 8⟩, ⟨3, 9⟩]
  have h2 := c4_absent_unparseable_all_enabled cfgStrict3679 true "abc"
    (some "abc") ⟨3, 6⟩ [⟨3, 7⟩, ⟨3, 8⟩, ⟨3, 9⟩]
  refine ⟨h1.1, h1.2.1 (by decide), h2.2.1 (by decide), ?_⟩
  have h4 := h1.2.2.2 (by decide) (by decide) (h1.2.1 (by decide))
  simpa [rangeGe] using h4

/-- When the enabled mapping is not all-true, its strict/non-strict slice
is not all-true either, and the legacy entry is not enabled, the resolver
returns whatever the cutover scan returns when the scan hits. -/
theorem resolveEnabled_scan_hit (cfg : Configuration) (isSel : Bool)
    (pvs : List (PyVer × Bool)) (r : String)
    (h1 : (pvs.map Prod.snd).all (fun b => b) = false)
    (h2 : (if cfg.is_strict_cf = true then pvs.map Prod.snd
        else (pvs.map Prod.snd).tail).all (fun b => b) = false)
    (h3 : lookup27 pvs ≠ some true)
    (h4 : cutoverScan cfg.is_strict_cf isSel
        (get_oldest_py3_version cfg (pvs.map Prod.fst))
        ((pvs.map Prod.snd).getD 0 true) false pvs = some r) :
    resolveEnabled cfg isSel pvs = some r := by
  simp only [resolveEnabled]
  rw [if_neg (by simp [h1]), if_neg (by simp [h2]),
    if_neg (fun hc => h3 hc.1), h4]

/-- When the enabled mapping is not all-true but its strict/non-strict
slice is all-true, the resolver takes the legacy-exempt branch. -/
theorem resolveEnabled_legacy_branch (cfg : Configuration) (isSel : Bool)
    (pvs : List (PyVer × Bool))
    (h1 : (pvs.map Prod.snd).all (fun b => b) = false)
    (h2 : (if cfg.is_strict_cf = true then pvs.map Prod.snd
        else (pvs.map Prod.snd).tail).all (fun b => b) = true) :
    resolveEnabled cfg isSel pvs =
      if isSel then (if cfg.is_strict_cf then none else some "# [py2k]")
      else some (rangeGe (get_oldest_py3_version cfg (pvs.map Prod.fst))) := by
  simp only [resolveEnabled]
  rw [if_neg (by simp [h1]), if_pos h2]

/-- The cutover scan on a mapping made of a nonempty disabled prefix, an
enabled non-legacy entry `v`, and an enabled tail, fires its ascending
branch exactly at `v`. -/
theorem cutoverScan_cutover (strict isSel : Bool) (small : PyVer) (first : Bool)
    (pre post : List (PyVer × Bool)) (v : PyVer)
    (hpre : ∀ p ∈ pre, p.2 = false) (hpost : ∀ p ∈ post, p.2 = true)
    (hv : v ≠ py27) :
    cutoverScan strict isSel small first false (pre ++ (v, true) :: post) =
      some (if isSel then selBelow v else rangeGe v) := by
  induction pre with
  | nil =>
    rw [List.nil_append, cutoverScan, if_neg hv, if_pos ?_]
    constructor
    · rw [List.all_eq_true]
      intro b hb
      rcases List.mem_cons.mp hb with h | h
      · rw [h]
      · obtain ⟨p, hp, hpb⟩ := List.mem_map.mp h
        rw [← hpb]
        exact hpost p hp
    · rfl
  | cons q pre2 ih =>
    obtain ⟨k, en⟩ := q
    have hen : en = false := hpre (k, en) (List.mem_cons_self _ _)
    subst hen
    have hpre2 : ∀ p ∈ pre2, p.2 = false :=
      fun p hp => hpre p (List.mem_cons_of_mem _ hp)
    have htrue : (true : Bool) ∈ (pre2 ++ (v, true) :: post).map Prod.snd :=
      List.mem_map.mpr ⟨(v, true), List.mem_append_right _ (List.mem_cons_self _ _), rfl⟩
    rw [List.cons_append, cutoverScan]
    by_cases hk : k = py27
    · rw [if_pos hk]
      simpa using ih hpre2
    · have hc1 : ¬(((false : Bool) :: (pre2 ++ (v, true) :: post).map Prod.snd).all
          (fun b => b) = true ∧ (false : Bool) = false) := by
        intro hcon
        have := List.all_eq_true.mp hcon.1 false (List.mem_cons_self _ _)
        exact Bool.false_ne_true this
      have hc2 : ¬(((false : Bool) :: (pre2 ++ (v, true) :: post).map Prod.snd).any
          (fun b => b) = false) := by
        intro hcon
        have hany : ((false : Bool) :: (pre2 ++ (v, true) :: post).map Prod.snd).any
            (fun b => b) = true :=
          List.any_eq_true.mpr ⟨true, List.mem_cons_of_mem _ htrue, rfl⟩
        rw [hcon] at hany
        exact Bool.false_ne_true hany
      rw [if_neg hk, if_neg hc1, if_neg hc2]
      simpa using ih hpre2

/-- **C3** (amended): for every enabled mapping with a single ascending
cutover at a non-legacy matrix entry `v` — at least one entry disabled
before `v`, everything from `v` onward enabled — range mode returns
exactly `">=<major>.<minor>"`, and guard mode returns the complementary
below-`v` guard `"# [py<<major><minor>]"`, except that when strict mode
is off and the only disabled entry is the leading legacy `2.7` entry,
guard mode returns `"# [py2k]"` instead (range mode unchanged).  Strict
matrices carry no legacy entry; non-strict ones start with it. -/
theorem c3_amended_single_ascending_cutover (cfg : Configuration)
    (pre post : List (PyVer × Bool)) (v : PyVer)
    (hpre : ∀ p ∈ pre, p.2 = false) (hpost : ∀ p ∈ post, p.2 = true)
    (hv27 : v ≠ py27) (hv3 : 3 ≤ v.major) (hpre0 : pre ≠ [])
    (hmode : (cfg.is_strict_cf = true ∧ ∀ p ∈ pre ++ (v, true) :: post, p.1 ≠ py27)
      ∨ (cfg.is_strict_cf = false ∧ ∃ pre2, pre = (py27, false) :: pre2)) :
    resolveEnabled cfg false (pre ++ (v, true) :: post) = some (rangeGe v) ∧
    resolveEnabled cfg true (pre ++ (v, true) :: post) =
      some (if cfg.is_strict_cf = false ∧ pre.length = 1 then "# [py2k]"
            else selBelow v) := by
  obtain ⟨q, hq⟩ := List.exists_mem_of_ne_nil pre hpre0
  have hmemfalse : (false : Bool) ∈ (pre ++ (v, true) :: post).map Prod.snd :=
    List.mem_map.mpr ⟨q, List.mem_append_left _ hq, hpre q hq⟩
  have hallfalse : ((pre ++ (v, true) :: post).map Prod.snd).all (fun b => b) = false :=
    Bool.eq_false_iff.mpr (fun hall =>
      Bool.false_ne_true (List.all_eq_true.mp hall false hmemfalse))
  rcases hmode with ⟨hstrict, hno27⟩ | ⟨hns, pre2, hpre2⟩
  · -- strict mode: the scan fires at the cutover.
    have hfind : (pre ++ (v, true) :: post).find? (fun p => decide (p.1 = py27)) = none :=
      List.find?_eq_none.mpr (fun x hx => by simpa using hno27 x hx)
    have h3 : lookup27 (pre ++ (v, true) :: post) ≠ some true := by
      simp [lookup27, hfind]
    have h2 : (if cfg.is_strict_cf = true then (pre ++ (v, true) :: post).map Prod.snd
        else ((pre ++ (v, true) :: post).map Prod.snd).tail).all (fun b => b) = false := by
      rw [if_pos hstrict]
      exact hallfalse
    have hscan := fun isSel =>
      cutoverScan_cutover cfg.is_strict_cf isSel
        (get_oldest_py3_version cfg ((pre ++ (v, true) :: post).map Prod.fst))
        (((pre ++ (v, true) :: post).map Prod.snd).getD 0 true)
        pre post v hpre hpost hv27
    refine ⟨?_, ?_⟩
    · have h := resolveEnabled_scan_hit cfg false (pre ++ (v, true) :: post)
        (rangeGe v) hallfalse h2 h3 (by simpa using hscan false)
      exact h
    · rw [if_neg (by simp [hstrict])]
      exact resolveEnabled_scan_hit cfg true (pre ++ (v, true) :: post)
        (selBelow v) hallfalse h2 h3 (by simpa using hscan true)
  · -- non-strict mode: the matrix starts with the (disabled) legacy entry.
    subst hpre2
    have h3 : lookup27 ((py27, false) :: pre2 ++ (v, true) :: post) ≠ some true := by
      simp [lookup27, List.find?, py27]
    cases pre2 with
    | nil =>
      -- only the legacy entry is disabled: the legacy-exempt branch fires.
      have h2 : (if cfg.is_strict_cf = true
          then (((py27, false) :: []) ++ (v, true) :: post).map Prod.snd
          else ((((py27, false) :: []) ++ (v, true) :: post).map Prod.snd).tail).all
            (fun b => b) = true := by
        rw [if_neg (by simp [hns])]
        rw [List.all_eq_true]
        intro b hb
        simp only [List.cons_append, List.nil_append, List.map_cons, List.tail_cons,
          List.mem_cons] at hb
        rcases hb with h | h
        · rw [h]
        · obtain ⟨p, hp, hpb⟩ := List.mem_map.mp h
          rw [← hpb]
          exact hpost p hp
      have hsmall : get_oldest_py3_version cfg
          ((((py27, false) :: []) ++ (v, true) :: post).map Prod.fst) = v := by
        simp only [List.cons_append, List.nil_append, List.map_cons,
          get_oldest_py3_version, List.find?]
        rw [show (decide (3 ≤ py27.major)) = false from rfl]
        rw [decide_eq_true hv3]
      have hres := fun isSel => resolveEnabled_legacy_branch cfg isSel
        (((py27, false) :: []) ++ (v, true) :: post) hallfalse h2
      refine ⟨?_, ?_⟩
      · have h := hres false
        rw [hsmall] at h
        simpa using h
      · have h := hres true
        simp only [hns] at h
        simpa [hns] using h
    | cons q2 pre3 =>
      -- another entry besides the legacy one is disabled: the scan fires.
      have hq2 : q2.2 = false :=
        hpre q2 (List.mem_cons_of_mem _ (List.mem_cons_self _ _))
      have h2 : (if cfg.is_strict_cf = true
          then (((py27, false) :: q2 :: pre3) ++ (v, true) :: post).map Prod.snd
          else ((((py27, false) :: q2 :: pre3) ++ (v, true) :: post).map Prod.snd).tail).all
            (fun b => b) = false := by
        rw [if_neg (by simp [hns])]
        refine Bool.eq_false_iff.mpr (fun hall => ?_)
        have hmem : (false : Bool) ∈
            ((q2 :: pre3) ++ (v, true) :: post).map Prod.snd :=
          List.mem_map.mpr ⟨q2, List.mem_append_left _ (List.mem_cons_self _ _), hq2⟩
        have := List.all_eq_true.mp hall false (by
          simpa using hmem)
        exact Bool.false_ne_true this
      have hscan := fun isSel =>
        cutoverScan_cutover cfg.is_strict_cf isSel
          (get_oldest_py3_version cfg
            ((((py27, false) :: q2 :: pre3) ++ (v, true) :: post).map Prod.fst))
          (((((py27, false) :: q2 :: pre3) ++ (v, true) :: post).map Prod.snd).getD 0 true)
          ((py27, false) :: q2 :: pre3) post v hpre hpost hv27
      refine ⟨?_, ?_⟩
      · exact resolveEnabled_scan_hit cfg false _ (rangeGe v) hallfalse h2 h3
          (by simpa using hscan false)
      · rw [if_neg (by simp)]
        exact resolveEnabled_scan_hit cfg true _ (selBelow v) hallfalse h2 h3
          (by simpa using hscan true)

/-- **C3** (witness): strict matrix `[3.6, 3.7, 3.8, 3.9]` with only
`3.6` disabled — cutover at `3.7`, range `">=3.7"`, guard `"# [py<37]"`. -/
theorem c3_amended_single_ascending_cutover_witness :
    resolveEnabled cfgStrict3679 false
      [(⟨3, 6⟩, false), (⟨3, 7⟩, true), (⟨3, 8⟩, true), (⟨3, 9⟩, true)] =
      some (rangeGe ⟨3, 7⟩) ∧
    resolveEnabled cfgStrict3679 true
      [(⟨3, 6⟩, false), (⟨3, 7⟩, true), (⟨3, 8⟩, true), (⟨3, 9⟩, true)] =
      some (selBelow ⟨3, 7⟩) := by
  have h := c3_amended_single_ascending_cutover cfgStrict3679
    [(⟨3, 6⟩, false)] [(⟨3, 8⟩, true), (⟨3, 9⟩, true)] ⟨3, 7⟩
    (by decide) (by decide) (by decide) (by decide) (by decide)
    (Or.inl ⟨rfl, by decide⟩)
  refine ⟨h.1, ?_⟩
  have h2 := h.2
  rwa [if_neg (by decide)] at h2

/-- Adding the canonical `"setuptools_scm"` spelling when missing and
then erasing the first `"setuptools-scm"` occurrence always leaves the
canonical spelling in place. -/
theorem scm_underscore_mem (d : List String) :
    "setuptools_scm" ∈
      (if "setuptools_scm" ∈ d then d else d ++ ["setuptools_scm"]).erase
        "setuptools-scm" := by
  have hu : "setuptools_scm" ∈
      (if "setuptools_scm" ∈ d then d else d ++ ["setuptools_scm"]) := by
    split
    · assumption
    · exact List.mem_append_right _ (List.mem_singleton_self _)
  exact (List.mem_erase_of_ne (by decide)).mpr hu

/-- **C7** (amended): the guarantee on the hyphen spelling
`"setuptools-scm"` belongs to the merge, which ends every extraction
run: its output never contains it — unconditionally when setup.py
declares `setup_requires` (the set-union dedup leaves at most one
occurrence for the single `remove`), and provided setup.cfg lists it at
most once when setup.cfg alone declares it (its list is taken
verbatim).  The injected setup stand-in does NOT share that guarantee,
and the underscore spelling is never omitted: with `use_scm_version`
set the stand-in always leaves `"setuptools_scm"` present, and when the
descriptor itself passes `setup_requires=["setuptools-scm"]` the
dict-update aliasing doubles the list before the single `remove`, so
the capture step retains one hyphen copy next to the added canonical
spelling. -/
theorem c7_amended_scm_spellings
    (setupPy setupCfg prior kwargsSR : Option (List String))
    (hcfg : ∀ l, setupCfg = some l → l.count "setuptools-scm" ≤ 1) :
    (∀ l, merge_setup_requires setupPy setupCfg = some l →
      "setuptools-scm" ∉ l) ∧
    "setuptools_scm" ∈ fake_setup_requires prior kwargsSR true ∧
    fake_setup_requires none (some ["setuptools-scm"]) true =
      ["setuptools-scm", "setuptools_scm"] := by
  have hfake : "setuptools_scm" ∈ fake_setup_requires prior kwargsSR true := by
    cases kwargsSR with
    | some l => exact scm_underscore_mem (l ++ l)
    | none =>
      cases prior with
      | some lp => exact scm_underscore_mem (lp ++ [])
      | none => exact scm_underscore_mem ([] ++ [])
  refine ⟨?_, hfake, by decide⟩
  intro l hl
  cases setupPy with
  | some vp =>
    simp only [merge_setup_requires, Option.some.injEq] at hl
    subst hl
    have hnd : (pySetUnion (setupCfg.getD []) vp).Nodup := List.nodup_dedup _
    have hcnt := List.nodup_iff_count_le_one.mp hnd "setuptools-scm"
    have hz : ((pySetUnion (setupCfg.getD []) vp).erase
        "setuptools-scm").count "setuptools-scm" = 0 := by
      rw [List.count_erase_self]
      omega
    exact List.count_eq_zero.mp hz
  | none =>
    cases hscfg : setupCfg with
    | none =>
      rw [hscfg] at hl
      exact Option.noConfusion hl
    | some vc =>
      rw [hscfg] at hl
      simp only [merge_setup_requires, Option.some.injEq] at hl
      subst hl
      have hz : (vc.erase "setuptools-scm").count "setuptools-scm" = 0 := by
        rw [List.count_erase_self]
        have := hcfg vc hscfg
        omega
      exact List.count_eq_zero.mp hz

/-- **C7** (witness): a concrete merge output carries no
`"setuptools-scm"`, a concrete injection result carries
`"setuptools_scm"`, and the aliasing case retains one hyphen copy. -/
theorem c7_amended_scm_spellings_witness :
    "setuptools-scm" ∉
      (pySetUnion ["pytest"] ["setuptools-scm"]).erase "setuptools-scm" ∧
    "setuptools_scm" ∈ fake_setup_requires none (some ["cython"]) true ∧
    fake_setup_requires none (some ["setuptools-scm"]) true =
      ["setuptools-scm", "setuptools_scm"] := by
  have h := c7_amended_scm_spellings
    (some ["setuptools-scm"]) (some ["pytest"]) none (some ["cython"])
    (fun l hl => by injection hl with h2; rw [← h2]; decide)
  exact ⟨h.1 _ rfl, h.2.1, h.2.2⟩

end Grayskull
